import Mathlib

/-!
# Verification of the discrete search-space engine

A shallow embedding of `baybe.searchspace.discrete` (class `SubspaceDiscrete`,
the cartesian-product generator and the simplex construction) together with
`baybe.parameters.numerical` (`NumericalDiscreteParameter`), and proofs of the
specification claims about them.

Modelling conventions:
* pandas dataframes become `DFrame`: a list of column names plus a list of
  index-labelled rows (the label plays the role of the pandas index);
* floats become rationals (`ℚ`);
* code that raises becomes `Except String`;
* Python's stable `sorted` becomes `List.insertionSort` (both are stable
  sorts, hence produce the same list).
-/

namespace Baybe

/-- A dataframe row: the cell values in column order. -/
abbrev Row := List ℚ

/-- Shallow embedding of a pandas dataframe: named columns and index-labelled
rows. -/
structure DFrame where
  cols : List String
  rows : List (Nat × Row)
deriving Repr, DecidableEq

/-- A parameter as consumed by the search-space code.  The fields mirror the
attributes used by `discrete.py`: `name`, `is_discrete`, `values` and, for
`NumericalDiscreteParameter`, `tolerance`.  `isNumDiscrete` models
`isinstance(p, NumericalDiscreteParameter)` and `isTask` models
`isinstance(p, TaskParameter)`.

Modelled from the spec: `TaskParameter` (with its `active_values`) and the
per-parameter encoding interface (`comp_df` column names `compCols` and the
pure exp→comp cell transform `compRow` behind `transform_rep_exp2comp`) are
not among the sources at hand; the fields follow the spec's description of
the parameter interface. -/
structure Param where
  name : String
  is_discrete : Bool := true
  isNumDiscrete : Bool := false
  isTask : Bool := false
  values : List ℚ := []
  tolerance : ℚ := 0
  active_values : List ℚ := []
  compCols : List String := []
  compRow : ℚ → Row := fun v => [v]

/-- The cartesian product of a list of value lists, row-major (first list
varies slowest), exactly the enumeration order of
`pandas.MultiIndex.from_product`. -/
def cartProd : List (List ℚ) → List (List ℚ)
  | [] => [[]]
  | vs :: rest => vs.flatMap (fun v => (cartProd rest).map (v :: ·))

/-- `parameter_cartesian_prod_to_df` from `discrete.py`: keep the discrete
parameters, build the full product of their value lists, reset the index to
`0, 1, 2, ...`; with no discrete parameter return the empty frame. -/
def parameter_cartesian_prod_to_df (parameters : List Param) : DFrame :=
  let lst_of_values := (parameters.filter (·.is_discrete)).map (·.values)
  let lst_of_names := (parameters.filter (·.is_discrete)).map (·.name)
  if lst_of_names.length < 1 then ⟨[], []⟩
  else ⟨lst_of_names, (cartProd lst_of_values).enum⟩

/-! ## Basic facts about `cartProd` -/

/-! ## The simplex construction (`SubspaceDiscrete.from_simplex`) -/

/-- Python's `min` on a list of rationals (`min` of an empty list raises in
Python; all uses below are guarded so the `0` default is never consulted). -/
def minVal : List ℚ → ℚ
  | [] => 0
  | v :: vs => vs.foldl min v

/-- The minimum possible sum contributed by the given parameters' value
lists: the sum of the per-list minima.  `minSum rest` equals the entry of
the source's `min_upcoming = np.cumsum(min_values[:0:-1])[::-1]` that the
loop pairs with the parameter preceding `rest` (with `zip_longest` filling
`0` for the last parameter, matching `minSum [] = 0`). -/
def minSum (vss : List (List ℚ)) : ℚ := (vss.map minVal).sum

/-- The local function `drop_invalid` of `from_simplex`: drop the rows whose
sum violates the simplex constraint, keeping the rest in order.  With
`equality = true` drop the rows with `sum < total - tolerance` or
`sum > total + tolerance`; otherwise drop the rows with
`sum > total + tolerance`. -/
def drop_invalid (df : List Row) (total tolerance : ℚ) (equality : Bool) :
    List Row :=
  if equality then
    df.filter (fun r =>
      !(decide (r.sum < total - tolerance) || decide (total + tolerance < r.sum)))
  else
    df.filter (fun r => !decide (total + tolerance < r.sum))

/-- The pandas cross-join `pd.merge(acc, values, how="cross")`: every row of
`acc` extended by every value, left-major. -/
def crossJoin (acc : List Row) (vs : List ℚ) : List Row :=
  acc.flatMap (fun r => vs.map (fun v => r ++ [v]))

/-- The incremental build-up loop of `from_simplex`: cross-join one
parameter at a time and immediately drop the partial rows that cannot reach
the total anymore (their partial sum already exceeds
`total - minSum rest` plus the tolerance).  Starting from the one-row frame
`[[]]`, the first iteration produces the single-column frame
`pd.DataFrame({param.name: param.values})` of the source. -/
def simplexLoop (total tolerance : ℚ) : List Row → List (List ℚ) → List Row
  | acc, [] => acc
  | acc, vs :: rest =>
      simplexLoop total tolerance
        (drop_invalid (crossJoin acc vs) (total - minSum rest) tolerance false)
        rest

/-- The row set produced by `from_simplex` before the final index reset:
the incremental loop, followed by the boundary filter when requested. -/
def from_simplex_rows (vss : List (List ℚ)) (total : ℚ)
    (boundary_only : Bool) (tolerance : ℚ) : List Row :=
  let rows := simplexLoop total tolerance [[]] vss
  if boundary_only then drop_invalid rows total tolerance true else rows

/-- The brute-force reference construction the spec measures `from_simplex`
against: build the full cartesian product and keep exactly the rows whose
sum `s` satisfies `|s - total| ≤ tolerance` (boundary) resp.
`s ≤ total + tolerance` (interior). -/
def bruteForceSimplexRows (vss : List (List ℚ)) (total : ℚ)
    (boundary_only : Bool) (tolerance : ℚ) : List Row :=
  if boundary_only then
    (cartProd vss).filter (fun r => decide (|r.sum - total| ≤ tolerance))
  else
    (cartProd vss).filter (fun r => decide (r.sum ≤ total + tolerance))

/-! ## The `SubspaceDiscrete` data model -/

/-- One row of the metadata table (`_METADATA_COLUMNS`). -/
structure MetaRow where
  was_recommended : Bool
  was_measured : Bool
  dont_recommend : Bool
deriving Repr, DecidableEq

/-- Modelled from the spec: the discrete-constraint interface
(`baybe.constraints.base.DiscreteConstraint` and the global
`DISCRETE_CONSTRAINTS_FILTERING_ORDER` list are not among the sources at
hand).  `typePos` is the position of the constraint's class in the canonical
filtering-order list (`DISCRETE_CONSTRAINTS_FILTERING_ORDER.index`),
`eval_during_creation` the creation-time flag, and `get_invalid` the
function returning the index labels of the rows violating the constraint. -/
structure DConstraint where
  typePos : Nat
  eval_during_creation : Bool
  get_invalid : DFrame → List Nat

/-- `df.drop(index=inds)`: remove the rows carrying the given index labels. -/
def dropLabels (df : DFrame) (inds : List Nat) : DFrame :=
  ⟨df.cols, df.rows.filter (fun r => !inds.contains r.1)⟩

/-- `df.reset_index(drop=True)`: renumber the rows `0, 1, 2, ...`. -/
def resetIndex (df : DFrame) : DFrame :=
  ⟨df.cols, (df.rows.map Prod.snd).enum⟩

/-- `SubspaceDiscrete._on_task_configurations`, as a positional boolean
mask (the source's boolean series is consumed through `.values`, i.e.
positionally): `true` for rows whose value of the first task parameter's
column lies among its `active_values`, all-`true` when there is no task
parameter.  A task parameter whose column is absent raises (`KeyError`). -/
def onTaskMask (parameters : List Param) (exp_rep : DFrame) :
    Except String (List Bool) :=
  match parameters.find? (·.isTask) with
  | none => .ok (exp_rep.rows.map (fun _ => true))
  | some p =>
    match exp_rep.cols.indexOf? p.name with
    | none => .error "KeyError"
    | some j =>
      .ok (exp_rep.rows.map (fun r =>
        match r.2.get? j with
        | some v => decide (v ∈ p.active_values)
        | none => false))

/-- `df[cs]` column selection: the given columns, in the given order;
missing columns raise (`KeyError`). -/
def selectCols (df : DFrame) (cs : List String) : Except String DFrame :=
  if cs.all (fun c => decide (c ∈ df.cols)) then
    .ok ⟨cs, df.rows.map (fun r =>
      (r.1, cs.map (fun c => (r.2.get? (df.cols.indexOf c)).getD 0)))⟩
  else .error "KeyError"

/-- The per-parameter transforms, concatenated column-wise
(`pd.concat(dfs, axis=1) if dfs else pd.DataFrame()`): one block of
encoding columns per parameter, rows aligned with the input's index; the
empty frame when there is no parameter. -/
def rawCompRep (parameters : List Param) (data : DFrame) : DFrame :=
  if parameters.isEmpty then ⟨[], []⟩
  else ⟨(parameters.map (·.compCols)).flatten,
    data.rows.map (fun r =>
      (r.1, (parameters.map (fun p =>
        p.compRow ((r.2.get? (data.cols.indexOf p.name)).getD 0))).flatten))⟩

/-- The body of `SubspaceDiscrete.transform`, with the lifecycle state made
explicit: `estCols = some cs` corresponds to `self.comp_rep` already
existing, so the result is reconciled to its columns (`comp_rep =
comp_rep[self.comp_rep.columns]`); `estCols = none` corresponds to the
defining transform during construction, where the attribute access raises
`AttributeError` and the reconciliation is skipped.  Short-circuits, as the
source does, to a column-free frame carrying the input's index when
`empty_encoding` is set or the input has no rows; raises (`KeyError`) when a
parameter's column is missing from the input. -/
def transformCore (parameters : List Param) (empty_encoding : Bool)
    (estCols : Option (List String)) (data : DFrame) : Except String DFrame :=
  if empty_encoding || data.rows.length < 1 then
    .ok ⟨[], data.rows.map (fun r => (r.1, ([] : Row)))⟩
  else if parameters.all (fun p => decide (p.name ∈ data.cols)) then
    match estCols with
    | none => .ok (rawCompRep parameters data)
    | some cs => selectCols (rawCompRep parameters data) cs
  else .error "KeyError"

/-- Modelled from the spec: `baybe.utils.dataframe.df_drop_single_value_columns`
is not among the sources at hand; per the surrounding code comments it drops
the columns that carry no covariate information (a single value over all
rows), with the listed (task-parameter) column names exempted. -/
def df_drop_single_value_columns (df : DFrame) (exclude : List String) :
    DFrame :=
  let keptIdx := df.cols.enum.filter (fun jc =>
    jc.2 ∈ exclude
    || !(match df.rows with
        | [] => true
        | r :: rest =>
          rest.all (fun r' => r'.2.get? jc.1 == r.2.get? jc.1)))
  ⟨keptIdx.map (·.2),
   df.rows.map (fun r => (r.1, keptIdx.map (fun jc => (r.2.get? jc.1).getD 0)))⟩

/-- The subspace record.  `metadata` is kept positionally aligned with
`exp_rep.rows` (the source's metadata table shares the index of `exp_rep`
and all masking in the modelled methods is positional via `.values`). -/
structure SubspaceDiscrete where
  parameters : List Param
  exp_rep : DFrame
  metadata : List MetaRow
  empty_encoding : Bool
  constraints : List DConstraint
  comp_rep : DFrame

/-- The attrs-generated construction path of `SubspaceDiscrete`: validate
the parameter names (spec: duplicate names are a construction error) and the
`exp_rep` index (duplicate labels are an error); default or validate the
metadata (default: all-`False`, then `dont_recommend := true` for off-task
rows; provided metadata allowing an off-task row is an error, as is a
metadata table not aligned with `exp_rep`); force `dont_recommend := true`
for off-task rows (`__attrs_post_init__`); and derive `comp_rep` by the
defining transform with the single-valued columns dropped (task-parameter
columns exempted) unless one was supplied. -/
def postInitMetadata (md : List MetaRow) (mask : List Bool) : List MetaRow :=
  List.zipWith
    (fun (m : MetaRow) (onT : Bool) =>
      if onT then m else ⟨m.was_recommended, m.was_measured, true⟩) md mask

/-- The default metadata table of `SubspaceDiscrete` (`_default_metadata`):
an explicitly empty table for an empty space (no parameters), otherwise
all-`False` rows with `dont_recommend := true` on the off-task rows. -/
def defaultMetadata (parameters : List Param) (mask : List Bool) :
    List MetaRow :=
  if parameters.isEmpty then [] else mask.map (fun onT => ⟨false, false, !onT⟩)

/-- The tail of the construction path shared by all metadata branches:
derive `comp_rep` by the defining transform with the single-valued columns
dropped (task-parameter columns exempted) unless one was supplied, and
assemble the record with the post-init metadata. -/
def makeTail (parameters : List Param) (exp_rep : DFrame) (md : List MetaRow)
    (mask : List Bool) (empty_encoding : Bool) (constraints : List DConstraint)
    (comp_rep? : Option DFrame) : Except String SubspaceDiscrete :=
  match comp_rep? with
  | some cr =>
    .ok ⟨parameters, exp_rep, postInitMetadata md mask, empty_encoding,
      constraints, cr⟩
  | none =>
    match transformCore parameters empty_encoding none exp_rep with
    | .error e => .error e
    | .ok t =>
      .ok ⟨parameters, exp_rep, postInitMetadata md mask, empty_encoding,
        constraints,
        df_drop_single_value_columns t
          ((parameters.filter (·.isTask)).map (·.name))⟩

def SubspaceDiscrete.make (parameters : List Param) (exp_rep : DFrame)
    (metadata? : Option (List MetaRow) := none)
    (empty_encoding : Bool := false)
    (constraints : List DConstraint := [])
    (comp_rep? : Option DFrame := none) :
    Except String SubspaceDiscrete :=
  if ¬ (parameters.map (·.name)).Nodup then
    .error "duplicate parameter names"
  else if ¬ (exp_rep.rows.map Prod.fst).Nodup then
    .error "The index of this search space contains duplicates."
  else
    match onTaskMask parameters exp_rep with
    | .error e => .error e
    | .ok mask =>
      match metadata? with
      | none =>
        makeTail parameters exp_rep (defaultMetadata parameters mask) mask
          empty_encoding constraints comp_rep?
      | some md =>
        if md.length = exp_rep.rows.length then
          if (md.zip mask).all (fun x => x.2 || x.1.dont_recommend) then
            makeTail parameters exp_rep md mask empty_encoding constraints
              comp_rep?
          else
            .error "Inconsistent instructions given: The provided metadata allows testing parameter configurations for inactive tasks."
        else .error "metadata not aligned with exp_rep"

/-- `SubspaceDiscrete.get_candidates`: mask out, positionally, the rows
flagged `dont_recommend`, plus the `was_recommended` rows unless repeats are
allowed, plus the `was_measured` rows unless already-measured rows are
allowed; return the surviving rows of both representations. -/
def SubspaceDiscrete.get_candidates (s : SubspaceDiscrete)
    (allow_repeated_recommendations : Bool := false)
    (allow_recommending_already_measured : Bool := false) :
    DFrame × DFrame :=
  let mask_todrop := s.metadata.map (fun m =>
    m.dont_recommend
    || (!allow_repeated_recommendations && m.was_recommended)
    || (!allow_recommending_already_measured && m.was_measured))
  (⟨s.exp_rep.cols,
    ((s.exp_rep.rows.zip mask_todrop).filter (fun x => !x.2)).map Prod.fst⟩,
   ⟨s.comp_rep.cols,
    ((s.comp_rep.rows.zip mask_todrop).filter (fun x => !x.2)).map Prod.fst⟩)

/-- `SubspaceDiscrete.transform` on a constructed instance, where
`self.comp_rep` exists: the reconciliation step selects exactly its
columns. -/
def SubspaceDiscrete.transform (s : SubspaceDiscrete) (data : DFrame) :
    Except String DFrame :=
  transformCore s.parameters s.empty_encoding (some s.comp_rep.cols) data

/-- The ordering key used by `from_product`:
`DISCRETE_CONSTRAINTS_FILTERING_ORDER.index(x.__class__)`. -/
def constraintLe (a b : DConstraint) : Prop := a.typePos ≤ b.typePos

instance : DecidableRel constraintLe := fun a b =>
  inferInstanceAs (Decidable (a.typePos ≤ b.typePos))

instance : IsTotal DConstraint constraintLe :=
  ⟨fun a b => Nat.le_total a.typePos b.typePos⟩

instance : IsTrans DConstraint constraintLe :=
  ⟨fun _ _ _ hab hbc => Nat.le_trans hab hbc⟩

/-- `SubspaceDiscrete.from_product`: stable-sort the constraints by their
type's canonical position (Python's `sorted` is stable, as is
`List.insertionSort`), build the cartesian product, drop the rows each
creation-time constraint marks invalid — sequentially, each constraint
evaluated on the already-pruned table — reset the index, and construct the
space with all (also the non-creation-time) constraints attached. -/
def SubspaceDiscrete.from_product (parameters : List Param)
    (constraints : List DConstraint := [])
    (empty_encoding : Bool := false) : Except String SubspaceDiscrete :=
  let constraints := List.insertionSort constraintLe constraints
  let exp_rep := parameter_cartesian_prod_to_df parameters
  let exp_rep := (constraints.filter (·.eval_during_creation)).foldl
    (fun df c => dropLabels df (c.get_invalid df)) exp_rep
  let exp_rep := resetIndex exp_rep
  SubspaceDiscrete.make parameters exp_rep none empty_encoding constraints none

/-- `SubspaceDiscrete.from_simplex`: validate that all parameters are
numerical-discrete and that all values are non-negative (`min` of an empty
parameter list raises in Python, hence the empty case errors), run the
incremental simplex construction, reset the index and construct the
space. -/
def SubspaceDiscrete.from_simplex (parameters : List Param) (total : ℚ)
    (boundary_only : Bool := false) (tolerance : ℚ := 1 / 1000000) :
    Except String SubspaceDiscrete :=
  if ¬ (parameters.all (fun p => p.is_discrete && p.isNumDiscrete && !p.isTask)) then
    .error "All parameters passed to from_simplex must be of type NumericalDiscreteParameter."
  else if parameters.isEmpty then
    .error "min() arg is an empty sequence"
  else if ¬ (0 ≤ minVal (parameters.map (fun p => minVal p.values))) then
    .error "All parameters passed to from_simplex must have non-negative values only."
  else
    SubspaceDiscrete.make parameters
      ⟨parameters.map (·.name),
        (from_simplex_rows (parameters.map (·.values)) total boundary_only
          tolerance).enum⟩
      none false [] none

/-! ## `NumericalDiscreteParameter` (`baybe.parameters.numerical`) -/

/-- `np.diff`: the consecutive differences of a list. -/
def adjacentDiffs : List ℚ → List ℚ
  | a :: b :: rest => (b - a) :: adjacentDiffs (b :: rest)
  | _ => []

/-- The default tolerance of `NumericalDiscreteParameter`: a tenth of the
smallest adjacent gap of the (sorted) values,
`0.1 * np.diff(self.values).min()`. -/
def default_tolerance (sortedValues : List ℚ) : ℚ :=
  (1 / 10) * minVal (adjacentDiffs sortedValues)

/-- The tolerance a `NumericalDiscreteParameter` ends up with: the supplied
one, or the default heuristic applied to the sorted values. -/
def chosenTolerance (tolerance? : Option ℚ) (values : List ℚ) : ℚ :=
  match tolerance? with
  | some t => t
  | none => default_tolerance (List.insertionSort (· ≤ ·) values)

/-- The attrs construction path of `NumericalDiscreteParameter`: the
converter sorts the values (Python's stable `sorted`); the validators
require at least two values (`min_len(2)`), pairwise distinct values
(`validate_unique_values`) and finite non-NaN values (vacuously true over
`ℚ`); the tolerance — the supplied one, or by default a tenth of the
smallest adjacent gap — must be non-negative (`ge(0.0)`). -/
def NumericalDiscreteParameter.make (name : String) (values : List ℚ)
    (tolerance? : Option ℚ := none) : Except String Param :=
  if (List.insertionSort (· ≤ ·) values).length < 2 then
    .error "Length of x must be at least 2"
  else if ¬ (List.insertionSort (· ≤ ·) values).Nodup then
    .error "All values must be unique"
  else if chosenTolerance tolerance? values < 0 then
    .error "tolerance must be non-negative"
  else
    .ok { name := name, is_discrete := true, isNumDiscrete := true,
          isTask := false,
          values := List.insertionSort (· ≤ ·) values,
          tolerance := chosenTolerance tolerance? values,
          compCols := [name], compRow := fun v => [v] }

/-- The strict version of the constraint ordering key, used to show that
sorting a duplicate-free-key constraint list is order-independent. -/
def constraintLt (a b : DConstraint) : Prop := a.typePos < b.typePos

instance : IsAntisymm DConstraint constraintLt :=
  ⟨fun _ _ h1 h2 => ((Nat.lt_asymm h1) h2).elim⟩

/-! ## Theorems -/

theorem cartProd_length (vss : List (List ℚ)) :
    (cartProd vss).length = (vss.map List.length).prod := by
  induction vss with
  | nil => rfl
  | cons vs rest ih =>
    have h1 : (cartProd (vs :: rest)).length
        = (vs.map (fun _ => (cartProd rest).length)).sum := by
      simp [cartProd, List.length_flatMap, Function.comp_def]
    rw [h1, List.map_const', List.sum_replicate, smul_eq_mul, ih]
    simp

theorem mem_cartProd {vss : List (List ℚ)} {r : List ℚ} :
    r ∈ cartProd vss ↔ List.Forall₂ (· ∈ ·) r vss := by
  induction vss generalizing r with
  | nil =>
    simp only [cartProd, List.mem_singleton]
    constructor
    · rintro rfl; exact List.Forall₂.nil
    · intro h; cases h; rfl
  | cons vs rest ih =>
    simp only [cartProd, List.mem_flatMap, List.mem_map]
    constructor
    · rintro ⟨v, hv, e, he, rfl⟩
      exact List.Forall₂.cons hv (ih.mp he)
    · intro h
      cases h with
      | cons hv hrest => exact ⟨_, hv, _, ih.mpr hrest, rfl⟩

theorem cartProd_nodup {vss : List (List ℚ)} (h : ∀ vs ∈ vss, vs.Nodup) :
    (cartProd vss).Nodup := by
  induction vss with
  | nil => simp [cartProd]
  | cons vs rest ih =>
    rw [cartProd, List.nodup_flatMap]
    constructor
    · intro v _
      exact List.Nodup.map (fun a b hab => by injection hab)
        (ih fun l hl => h l (List.mem_cons_of_mem _ hl))
    · have hvs : vs.Nodup := h vs (List.mem_cons_self _ _)
      refine List.Pairwise.imp_of_mem ?_ hvs
      intro a b _ _ hab
      simp only [Function.onFun, List.Disjoint, List.mem_map]
      rintro x ⟨e, _, rfl⟩ ⟨e', _, he'⟩
      exact hab (by injection he' with h1 _; exact h1.symm)

theorem foldl_min_le_init (l : List ℚ) (b : ℚ) : l.foldl min b ≤ b := by
  induction l generalizing b with
  | nil => exact le_refl _
  | cons a as iha => exact le_trans (iha (min b a)) (min_le_left _ _)

theorem foldl_min_le_mem {l : List ℚ} {v : ℚ} (b : ℚ) (hv : v ∈ l) :
    l.foldl min b ≤ v := by
  induction l generalizing b with
  | nil => cases hv
  | cons a as iha =>
    rcases List.mem_cons.mp hv with rfl | hv
    · exact le_trans (foldl_min_le_init as (min b v)) (min_le_right _ _)
    · exact iha _ hv

theorem minVal_le {vs : List ℚ} {v : ℚ} (hv : v ∈ vs) : minVal vs ≤ v := by
  cases vs with
  | nil => cases hv
  | cons w ws =>
    show ws.foldl min w ≤ v
    rcases List.mem_cons.mp hv with rfl | hv
    · exact foldl_min_le_init ws v
    · exact foldl_min_le_mem w hv

theorem minSum_le_sum {vss : List (List ℚ)} {r : List ℚ}
    (hr : r ∈ cartProd vss) : minSum vss ≤ r.sum := by
  induction vss generalizing r with
  | nil =>
    simp only [cartProd, List.mem_singleton] at hr
    subst hr
    simp [minSum]
  | cons vs rest ih =>
    simp only [cartProd, List.mem_flatMap, List.mem_map] at hr
    obtain ⟨v, hv, e, he, rfl⟩ := hr
    have h1 : minVal vs ≤ v := minVal_le hv
    have h2 : minSum rest ≤ e.sum := ih he
    simp only [minSum, List.map_cons, List.sum_cons, List.sum_cons] at *
    exact add_le_add h1 h2

/-- The interior-mode `drop_invalid` is the filter keeping
`sum ≤ total + tolerance`. -/
theorem drop_invalid_false (df : List Row) (total tolerance : ℚ) :
    drop_invalid df total tolerance false
    = df.filter (fun r => decide (r.sum ≤ total + tolerance)) := by
  refine List.filter_congr ?_
  intro r _
  by_cases h : r.sum ≤ total + tolerance
  · simp [h, not_lt.mpr h]
  · simp [h, lt_of_not_le h]

/-- Pruning partial rows that already exceed `total - minSum rest` (+tol)
loses nothing that would survive the final tolerance filter: every
extension of such a row by elements of the remaining parameters keeps a sum
above `total + tolerance`. -/
theorem filter_flatMap_drop (S : List Row) (rest : List (List ℚ))
    (total tolerance : ℚ) :
    ((drop_invalid S (total - minSum rest) tolerance false).flatMap
        (fun r => (cartProd rest).map (r ++ ·))).filter
        (fun r => decide (r.sum ≤ total + tolerance))
    = (S.flatMap (fun r => (cartProd rest).map (r ++ ·))).filter
        (fun r => decide (r.sum ≤ total + tolerance)) := by
  rw [drop_invalid_false]
  induction S with
  | nil => rfl
  | cons r S ih =>
    by_cases hr : r.sum ≤ total - minSum rest + tolerance
    · rw [List.filter_cons_of_pos (by simpa using hr), List.flatMap_cons,
        List.flatMap_cons, List.filter_append, List.filter_append, ih]
    · rw [List.filter_cons_of_neg (by simpa using hr), List.flatMap_cons,
        List.filter_append, ih]
      have hnil : ((cartProd rest).map (r ++ ·)).filter
          (fun x => decide (x.sum ≤ total + tolerance)) = [] := by
        rw [List.filter_eq_nil_iff]
        intro a ha
        simp only [List.mem_map] at ha
        obtain ⟨e, he, rfl⟩ := ha
        have h1 : minSum rest ≤ e.sum := minSum_le_sum he
        have h2 : total + tolerance < r.sum + e.sum := by
          have := lt_of_not_le hr
          linarith
        simp only [List.sum_append, decide_eq_true_eq]
        exact not_le.mpr h2
      rw [hnil, List.nil_append]

/-- Cross-joining one parameter and then extending by the product of the
rest is extending by the product of all of them. -/
theorem crossJoin_flatMap (acc : List Row) (vs : List ℚ)
    (rest : List (List ℚ)) :
    (crossJoin acc vs).flatMap (fun r => (cartProd rest).map (r ++ ·))
    = acc.flatMap (fun r => (cartProd (vs :: rest)).map (r ++ ·)) := by
  simp only [crossJoin, cartProd, List.flatMap_assoc, List.flatMap_map,
    List.map_flatMap, List.map_map]
  refine List.flatMap_congr ?_
  intro r _
  refine List.flatMap_congr ?_
  intro v _
  refine List.map_congr_left ?_
  intro e _
  simp

/-- The incremental loop, started from rows already small enough to survive
the final filter, produces exactly the tolerance-filtered extension of those
rows by the full cartesian product of the remaining parameters. -/
theorem simplexLoop_eq (total tolerance : ℚ) (vss : List (List ℚ)) :
    ∀ acc : List Row, (∀ r ∈ acc, r.sum ≤ total - minSum vss + tolerance) →
    simplexLoop total tolerance acc vss
    = (acc.flatMap (fun r => (cartProd vss).map (r ++ ·))).filter
        (fun r => decide (r.sum ≤ total + tolerance)) := by
  induction vss with
  | nil =>
    intro acc hacc
    have h1 : acc.flatMap (fun r => (cartProd []).map (r ++ ·)) = acc := by
      simp [cartProd]
    rw [simplexLoop, h1, List.filter_eq_self.mpr]
    intro r hr
    have := hacc r hr
    simp only [minSum, List.map_nil, List.sum_nil, sub_zero] at this
    simpa using this
  | cons vs rest ih =>
    intro acc hacc
    rw [simplexLoop, ih _ (by
      intro r hr
      rw [drop_invalid_false] at hr
      have := List.mem_filter.mp hr
      simpa using this.2)]
    rw [filter_flatMap_drop, crossJoin_flatMap]

/-- For a nonempty parameter list, the loop started from the empty prefix
row is exactly the brute-force interior construction. -/
theorem simplexLoop_full (total tolerance : ℚ) (vs : List ℚ)
    (rest : List (List ℚ)) :
    simplexLoop total tolerance [[]] (vs :: rest)
    = (cartProd (vs :: rest)).filter
        (fun r => decide (r.sum ≤ total + tolerance)) := by
  rw [simplexLoop, simplexLoop_eq _ _ _ _ (by
    intro r hr
    rw [drop_invalid_false] at hr
    have := List.mem_filter.mp hr
    simpa using this.2)]
  rw [filter_flatMap_drop, crossJoin_flatMap, List.flatMap_singleton]
  simp

/-- The rows produced by `from_simplex` equal the brute-force construction,
as lists (same rows, same order), for every nonempty parameter list. -/
theorem from_simplex_rows_eq (vss : List (List ℚ)) (total : ℚ)
    (boundary_only : Bool) (tolerance : ℚ) (hne : vss ≠ []) :
    from_simplex_rows vss total boundary_only tolerance
    = bruteForceSimplexRows vss total boundary_only tolerance := by
  obtain ⟨vs, rest, rfl⟩ : ∃ vs rest, vss = vs :: rest := by
    cases vss with
    | nil => exact absurd rfl hne
    | cons a l => exact ⟨a, l, rfl⟩
  cases boundary_only with
  | false =>
    show simplexLoop total tolerance [[]] (vs :: rest)
      = (cartProd (vs :: rest)).filter
          (fun r => decide (r.sum ≤ total + tolerance))
    exact simplexLoop_full total tolerance vs rest
  | true =>
    show (simplexLoop total tolerance [[]] (vs :: rest)).filter
        (fun r => !(decide (r.sum < total - tolerance)
          || decide (total + tolerance < r.sum)))
      = (cartProd (vs :: rest)).filter
          (fun r => decide (|r.sum - total| ≤ tolerance))
    rw [simplexLoop_full, List.filter_filter]
    refine List.filter_congr ?_
    intro r _
    rw [Bool.eq_iff_iff]
    simp only [Bool.and_eq_true, Bool.not_eq_true', Bool.or_eq_false_iff,
      decide_eq_false_iff_not, decide_eq_true_eq, not_lt, abs_sub_le_iff]
    constructor
    · rintro ⟨⟨h1, h2⟩, _⟩
      exact ⟨by linarith, by linarith⟩
    · rintro ⟨h1, h2⟩
      exact ⟨⟨by linarith, by linarith⟩, by linarith⟩

/-! ## Facts about `minVal` and `adjacentDiffs` -/

theorem foldl_min_mem (vs : List ℚ) : ∀ v : ℚ, vs.foldl min v ∈ v :: vs := by
  induction vs with
  | nil => intro v; exact List.mem_singleton.mpr rfl
  | cons a as ih =>
    intro v
    have h := ih (min v a)
    rcases List.mem_cons.mp h with h1 | h1
    · rcases min_choice v a with h2 | h2
      · rw [show (a :: as).foldl min v = as.foldl min (min v a) from rfl, h1, h2]
        exact List.mem_cons_self _ _
      · rw [show (a :: as).foldl min v = as.foldl min (min v a) from rfl, h1, h2]
        exact List.mem_cons_of_mem _ (List.mem_cons_self _ _)
    · exact List.mem_cons_of_mem _ (List.mem_cons_of_mem _ h1)

theorem minVal_mem {l : List ℚ} (h : l ≠ []) : minVal l ∈ l := by
  cases l with
  | nil => exact absurd rfl h
  | cons v vs => exact foldl_min_mem vs v

theorem zero_le_minVal {l : List ℚ} (h : ∀ x ∈ l, 0 ≤ x) : 0 ≤ minVal l := by
  cases l with
  | nil => exact le_refl 0
  | cons v vs => exact h _ (minVal_mem (List.cons_ne_nil _ _))

theorem zero_lt_minVal {l : List ℚ} (hne : l ≠ []) (h : ∀ x ∈ l, 0 < x) :
    0 < minVal l :=
  h _ (minVal_mem hne)

theorem adjacentDiffs_pos {l : List ℚ} (hs : List.Sorted (· ≤ ·) l)
    (hn : l.Nodup) : ∀ d ∈ adjacentDiffs l, 0 < d := by
  induction l with
  | nil => intro d hd; cases hd
  | cons a t ih =>
    cases t with
    | nil => intro d hd; cases hd
    | cons b t2 =>
      intro d hd
      rw [adjacentDiffs] at hd
      rcases List.mem_cons.mp hd with rfl | hd
      · have hab : a ≤ b :=
          (List.sorted_cons.mp hs).1 b (List.mem_cons_self _ _)
        have hne : a ≠ b := by
          intro he
          exact (List.nodup_cons.mp hn).1 (he ▸ List.mem_cons_self _ _)
        have : a < b := lt_of_le_of_ne hab hne
        linarith
      · exact ih (List.sorted_cons.mp hs).2 (List.nodup_cons.mp hn).2 d hd

theorem adjacentDiffs_ne_nil {l : List ℚ} (h : 2 ≤ l.length) :
    adjacentDiffs l ≠ [] := by
  match l, h with
  | a :: b :: rest, _ =>
    rw [adjacentDiffs]
    exact List.cons_ne_nil _ _

/-! ## Claims C9 and C10: `NumericalDiscreteParameter` construction -/

/-- Claim C9 is false on the code: a numerical-discrete parameter with
values `[0, 1]` (minimum gap `1`) and an explicitly supplied tolerance of
`5` is constructed successfully, yet `5 < 1/2` fails — no upper bound on
the tolerance is validated at construction. -/
theorem claim_C9_counterexample :
    (NumericalDiscreteParameter.make "x" [0, 1] (some 5)).map
        (fun p => decide (p.tolerance < minVal (adjacentDiffs p.values) / 2))
      = .ok false := by
  with_unfolding_all rfl

/-- Claim C9, amended: every successfully constructed numerical-discrete
parameter has a non-negative tolerance, and a negative tolerance is
rejected at construction; when the tolerance is defaulted it equals a tenth
of the minimum gap between the sorted distinct values and is therefore
strictly less than half that gap.  No upper bound is enforced for an
explicitly supplied tolerance. -/
theorem claim_C9 (name : String) (values : List ℚ) (tolerance? : Option ℚ) :
    (∀ p : Param,
      NumericalDiscreteParameter.make name values tolerance? = .ok p →
      0 ≤ p.tolerance ∧
      (tolerance? = none →
        p.tolerance = default_tolerance p.values ∧
        p.tolerance < minVal (adjacentDiffs p.values) / 2)) ∧
    (∀ t : ℚ, t < 0 → tolerance? = some t →
      (NumericalDiscreteParameter.make name values tolerance?).isOk = false) := by
  constructor
  · intro p hp
    unfold NumericalDiscreteParameter.make at hp
    by_cases hlen : (List.insertionSort (· ≤ ·) values).length < 2
    · rw [if_pos hlen] at hp; cases hp
    · rw [if_neg hlen] at hp
      by_cases hnd : (List.insertionSort (· ≤ ·) values).Nodup
      · rw [if_neg (not_not_intro hnd)] at hp
        by_cases htol : chosenTolerance tolerance? values < 0
        · rw [if_pos htol] at hp; cases hp
        · rw [if_neg htol] at hp
          injection hp with hp
          subst hp
          refine ⟨not_lt.mp htol, ?_⟩
          rintro rfl
          refine ⟨rfl, ?_⟩
          have hpos : 0 < minVal (adjacentDiffs (List.insertionSort (· ≤ ·) values)) := by
            refine zero_lt_minVal
              (adjacentDiffs_ne_nil (not_lt.mp hlen)) ?_
            exact adjacentDiffs_pos
              (List.sorted_insertionSort (· ≤ ·) values) hnd
          show chosenTolerance none values
            < minVal (adjacentDiffs (List.insertionSort (· ≤ ·) values)) / 2
          rw [chosenTolerance, default_tolerance]
          linarith
      · rw [if_pos hnd] at hp; cases hp
  · rintro t ht rfl
    unfold NumericalDiscreteParameter.make
    by_cases hlen : (List.insertionSort (· ≤ ·) values).length < 2
    · rw [if_pos hlen]; rfl
    · rw [if_neg hlen]
      by_cases hnd : (List.insertionSort (· ≤ ·) values).Nodup
      · rw [if_neg (not_not_intro hnd), if_pos (show chosenTolerance (some t) values < 0 from ht)]
        rfl
      · rw [if_pos hnd]; rfl

/-- Witness for the amended claim C9: for values `[0, 1]` and a defaulted
tolerance, construction succeeds with tolerance `1/10`, which is
non-negative, equal to the default heuristic, and below half the minimum
gap. -/
theorem claim_C9_witness :
    (NumericalDiscreteParameter.make "x" [0, 1] none).map
        (fun p => decide (0 ≤ p.tolerance)
          && decide (p.tolerance = default_tolerance p.values)
          && decide (p.tolerance < minVal (adjacentDiffs p.values) / 2))
      = .ok true := by
  obtain ⟨p, hp⟩ : ∃ p, NumericalDiscreteParameter.make "x" [0, 1] none = .ok p :=
    ⟨_, by with_unfolding_all rfl⟩
  obtain ⟨h1, h2⟩ := (claim_C9 "x" [0, 1] none).1 p hp
  obtain ⟨h3, h4⟩ := h2 rfl
  rw [hp]
  simp only [Except.map, Except.ok.injEq]
  rw [decide_eq_true h1, decide_eq_true h3, decide_eq_true h4]
  rfl

/-- Claim C10: constructing a `NumericalDiscreteParameter` from fewer than
two values fails the `min_len(2)` validator, whatever the tolerance
argument. -/
theorem claim_C10 (name : String) (values : List ℚ) (tolerance? : Option ℚ)
    (h : values.length < 2) :
    NumericalDiscreteParameter.make name values tolerance?
      = .error "Length of x must be at least 2" := by
  unfold NumericalDiscreteParameter.make
  rw [if_pos (by rw [List.length_insertionSort]; exact h)]

/-- Witness for claim C10: the singleton value list `[3]` (and the empty
list) are rejected. -/
theorem claim_C10_witness :
    ([(3 : ℚ)].length < 2 ∧
      NumericalDiscreteParameter.make "x" [3] none
        = .error "Length of x must be at least 2") ∧
    (([] : List ℚ).length < 2 ∧
      NumericalDiscreteParameter.make "x" [] (some 1)
        = .error "Length of x must be at least 2") :=
  ⟨⟨by decide, claim_C10 "x" [3] none (by decide)⟩,
   ⟨by decide, claim_C10 "x" [] (some 1) (by decide)⟩⟩

/-! ## The construction path succeeds on well-formed input -/

theorem transformCore_ok (parameters : List Param) (ee : Bool) (data : DFrame)
    (h : ∀ p ∈ parameters, p.name ∈ data.cols) :
    ∃ t, transformCore parameters ee none data = .ok t := by
  unfold transformCore
  split
  · exact ⟨_, rfl⟩
  · rw [if_pos (List.all_eq_true.mpr fun p hp => decide_eq_true (h p hp))]
    exact ⟨_, rfl⟩

theorem onTaskMask_noTask (parameters : List Param) (exp_rep : DFrame)
    (h : ∀ p ∈ parameters, p.isTask = false) :
    onTaskMask parameters exp_rep = .ok (exp_rep.rows.map fun _ => true) := by
  unfold onTaskMask
  rw [List.find?_eq_none.mpr fun p hp => by simp [h p hp]]

theorem make_ok (parameters : List Param) (exp_rep : DFrame) (ee : Bool)
    (cs : List DConstraint)
    (h1 : (parameters.map (·.name)).Nodup)
    (h2 : (exp_rep.rows.map Prod.fst).Nodup)
    (h3 : ∀ p ∈ parameters, p.isTask = false)
    (h4 : ∀ p ∈ parameters, p.name ∈ exp_rep.cols) :
    ∃ s, SubspaceDiscrete.make parameters exp_rep none ee cs none = .ok s ∧
      s.parameters = parameters ∧ s.exp_rep = exp_rep ∧
      s.constraints = cs ∧ s.empty_encoding = ee := by
  unfold SubspaceDiscrete.make
  rw [if_neg (not_not_intro h1), if_neg (not_not_intro h2),
    onTaskMask_noTask parameters exp_rep h3]
  obtain ⟨t, ht⟩ := transformCore_ok parameters ee exp_rep h4
  show ∃ s, makeTail parameters exp_rep _ _ ee cs none = .ok s ∧ _
  unfold makeTail
  rw [ht]
  exact ⟨_, rfl, rfl, rfl, rfl, rfl⟩

/-! ## Claims C1 and C7: the simplex construction -/

theorem from_simplex_ok (parameters : List Param) (total : ℚ)
    (boundary_only : Bool) (tolerance : ℚ)
    (hne : parameters ≠ [])
    (htype : ∀ p ∈ parameters,
      p.is_discrete = true ∧ p.isNumDiscrete = true ∧ p.isTask = false)
    (hnn : ∀ p ∈ parameters, ∀ v ∈ p.values, 0 ≤ v)
    (hnames : (parameters.map (·.name)).Nodup) :
    ∃ s, SubspaceDiscrete.from_simplex parameters total boundary_only
        tolerance = .ok s ∧
      s.exp_rep = ⟨parameters.map (·.name),
        (bruteForceSimplexRows (parameters.map (·.values)) total
          boundary_only tolerance).enum⟩ := by
  unfold SubspaceDiscrete.from_simplex
  rw [if_neg (not_not_intro (List.all_eq_true.mpr fun p hp => by
    obtain ⟨e1, e2, e3⟩ := htype p hp
    simp [e1, e2, e3]))]
  rw [if_neg (by
    intro he
    exact hne (List.isEmpty_iff.mp he))]
  rw [if_neg (not_not_intro (zero_le_minVal (by
    intro x hx
    simp only [List.mem_map] at hx
    obtain ⟨p, hp, rfl⟩ := hx
    exact zero_le_minVal (hnn p hp))))]
  rw [from_simplex_rows_eq _ _ _ _ (by
    intro he
    exact hne (List.map_eq_nil_iff.mp he))]
  obtain ⟨s, hs, _, he, _, _⟩ := make_ok parameters
    ⟨parameters.map (·.name),
      (bruteForceSimplexRows (parameters.map (·.values)) total boundary_only
        tolerance).enum⟩
    false []
    hnames
    (by
      show ((List.enum _).map Prod.fst).Nodup
      rw [List.enum_map_fst]
      exact List.nodup_range _)
    (fun p hp => (htype p hp).2.2)
    (fun p hp => by
      show p.name ∈ parameters.map (·.name)
      exact List.mem_map_of_mem _ hp)
  exact ⟨s, hs, he⟩

/-- Claim C1: for every non-empty list of numerical-discrete parameters
with only non-negative values (and distinct names, as any space requires),
`from_simplex` succeeds and its `exp_rep` rows are exactly the rows of the
brute-force construction — the full cartesian product filtered by the sum
condition — in the same order; in particular every row satisfies the sum
condition and the row counts agree. -/
theorem claim_C1 (parameters : List Param) (total : ℚ)
    (boundary_only : Bool) (tolerance : ℚ)
    (hne : parameters ≠ [])
    (htype : ∀ p ∈ parameters,
      p.is_discrete = true ∧ p.isNumDiscrete = true ∧ p.isTask = false)
    (hnn : ∀ p ∈ parameters, ∀ v ∈ p.values, 0 ≤ v)
    (hnames : (parameters.map (·.name)).Nodup) :
    ∃ s, SubspaceDiscrete.from_simplex parameters total boundary_only
        tolerance = .ok s ∧
      s.exp_rep.rows.map Prod.snd
        = bruteForceSimplexRows (parameters.map (·.values)) total
            boundary_only tolerance ∧
      (∀ r ∈ s.exp_rep.rows.map Prod.snd,
        (boundary_only = true → |r.sum - total| ≤ tolerance) ∧
        (boundary_only = false → r.sum ≤ total + tolerance)) ∧
      s.exp_rep.rows.length
        = (bruteForceSimplexRows (parameters.map (·.values)) total
            boundary_only tolerance).length := by
  obtain ⟨s, hs, he⟩ := from_simplex_ok parameters total boundary_only
    tolerance hne htype hnn hnames
  have hrows : s.exp_rep.rows.map Prod.snd
      = bruteForceSimplexRows (parameters.map (·.values)) total
          boundary_only tolerance := by
    rw [he]
    exact List.enum_map_snd _
  refine ⟨s, hs, hrows, ?_, ?_⟩
  · intro r hr
    rw [hrows] at hr
    unfold bruteForceSimplexRows at hr
    constructor
    · rintro rfl
      rw [if_pos rfl] at hr
      simpa using (List.mem_filter.mp hr).2
    · rintro rfl
      rw [if_neg Bool.false_ne_true] at hr
      simpa using (List.mem_filter.mp hr).2
  · rw [← hrows, List.length_map]

/-- Claim C7: the final sum test of `from_simplex` is a tolerance-band
comparison, never exact equality: among the product configurations, one
summing to exactly `total + tolerance` is kept, one summing to
`total + tolerance + ε` for any `ε > 0` is dropped, and with
`boundary_only` a configuration is kept exactly when
`total - tolerance ≤ sum ≤ total + tolerance`. -/
theorem claim_C7 (parameters : List Param) (total : ℚ)
    (boundary_only : Bool) (tolerance : ℚ)
    (hne : parameters ≠ [])
    (htype : ∀ p ∈ parameters,
      p.is_discrete = true ∧ p.isNumDiscrete = true ∧ p.isTask = false)
    (hnn : ∀ p ∈ parameters, ∀ v ∈ p.values, 0 ≤ v)
    (hnames : (parameters.map (·.name)).Nodup)
    (htol : 0 ≤ tolerance) :
    ∃ s, SubspaceDiscrete.from_simplex parameters total boundary_only
        tolerance = .ok s ∧
      ∀ r ∈ cartProd (parameters.map (·.values)),
        (r ∈ s.exp_rep.rows.map Prod.snd ↔
          (boundary_only = true → total - tolerance ≤ r.sum) ∧
          r.sum ≤ total + tolerance) ∧
        (r.sum = total + tolerance → r ∈ s.exp_rep.rows.map Prod.snd) ∧
        (∀ ε : ℚ, 0 < ε → r.sum = total + tolerance + ε →
          r ∉ s.exp_rep.rows.map Prod.snd) := by
  obtain ⟨s, hs, he⟩ := from_simplex_ok parameters total boundary_only
    tolerance hne htype hnn hnames
  have hrows : s.exp_rep.rows.map Prod.snd
      = bruteForceSimplexRows (parameters.map (·.values)) total
          boundary_only tolerance := by
    rw [he]
    exact List.enum_map_snd _
  refine ⟨s, hs, ?_⟩
  intro r hr
  have hmem : r ∈ s.exp_rep.rows.map Prod.snd ↔
      (boundary_only = true → total - tolerance ≤ r.sum) ∧
      r.sum ≤ total + tolerance := by
    rw [hrows]
    unfold bruteForceSimplexRows
    cases boundary_only with
    | false =>
      rw [if_neg Bool.false_ne_true, List.mem_filter]
      simp only [decide_eq_true_eq]
      constructor
      · rintro ⟨_, h⟩
        exact ⟨fun hc => absurd hc Bool.false_ne_true, h⟩
      · rintro ⟨_, h⟩
        exact ⟨hr, h⟩
    | true =>
      rw [if_pos rfl, List.mem_filter]
      simp only [decide_eq_true_eq, abs_sub_le_iff]
      constructor
      · rintro ⟨_, h1, h2⟩
        exact ⟨fun _ => by linarith, by linarith⟩
      · rintro ⟨h1, h2⟩
        exact ⟨hr, by linarith, by linarith [h1 (by trivial)]⟩
  refine ⟨hmem, ?_, ?_⟩
  · intro hsum
    rw [hmem]
    exact ⟨fun _ => by linarith, by linarith⟩
  · intro ε hε hsum hin
    have := (hmem.mp hin).2
    linarith

/-- Witness for claim C1: two parameters over `[0, 1, 2]`, `total = 2`,
`boundary_only = true`, zero tolerance: the simplex construction yields
exactly the three boundary rows of the brute-force filter, in product
order. -/
theorem claim_C1_witness :
    (SubspaceDiscrete.from_simplex
        [{ name := "a", values := [0, 1, 2], isNumDiscrete := true },
         { name := "b", values := [0, 1, 2], isNumDiscrete := true }]
        2 true 0).map (fun s => s.exp_rep.rows.map Prod.snd)
      = .ok [[0, 2], [1, 1], [2, 0]] := by
  obtain ⟨s, hs, hrows, _, _⟩ := claim_C1
    [{ name := "a", values := [0, 1, 2], isNumDiscrete := true },
     { name := "b", values := [0, 1, 2], isNumDiscrete := true }]
    2 true 0
    (List.cons_ne_nil _ _)
    (by
      intro p hp
      simp only [List.mem_cons, List.not_mem_nil, or_false] at hp
      rcases hp with rfl | rfl <;> exact ⟨rfl, rfl, rfl⟩)
    (by
      intro p hp
      simp only [List.mem_cons, List.not_mem_nil, or_false] at hp
      rcases hp with rfl | rfl <;> decide)
    (by decide)
  rw [hs]
  show Except.ok (s.exp_rep.rows.map Prod.snd) = _
  rw [hrows]
  with_unfolding_all rfl

/-- Witness for claim C7: same two parameters, `total = 2`, `tolerance = 1`,
interior mode: the product row `[1, 2]` (sum `3 = total + tolerance`) is
kept and the product row `[2, 2]` (sum `4 = total + tolerance + 1`) is
dropped. -/
theorem claim_C7_witness :
    (SubspaceDiscrete.from_simplex
        [{ name := "a", values := [0, 1, 2], isNumDiscrete := true },
         { name := "b", values := [0, 1, 2], isNumDiscrete := true }]
        2 false 1).map (fun s =>
          decide ([1, 2] ∈ s.exp_rep.rows.map Prod.snd)
          && decide ([2, 2] ∉ s.exp_rep.rows.map Prod.snd))
      = .ok true := by
  obtain ⟨s, hs, h⟩ := claim_C7
    [{ name := "a", values := [0, 1, 2], isNumDiscrete := true },
     { name := "b", values := [0, 1, 2], isNumDiscrete := true }]
    2 false 1
    (List.cons_ne_nil _ _)
    (by
      intro p hp
      simp only [List.mem_cons, List.not_mem_nil, or_false] at hp
      rcases hp with rfl | rfl <;> exact ⟨rfl, rfl, rfl⟩)
    (by
      intro p hp
      simp only [List.mem_cons, List.not_mem_nil, or_false] at hp
      rcases hp with rfl | rfl <;> decide)
    (by decide)
    (by norm_num)
  have h12 := (h [1, 2] (by decide)).2.1
    (by norm_num [List.sum_cons, List.sum_nil])
  have h22 := (h [2, 2] (by decide)).2.2 1 one_pos
    (by norm_num [List.sum_cons, List.sum_nil])
  rw [hs]
  simp only [Except.map, decide_eq_true h12, decide_eq_true h22]
  rfl

/-! ## Claim C2: the cartesian-product generator -/

/-- Claim C2: `parameter_cartesian_prod_to_df` produces one column per
discrete parameter, named and ordered by the parameter list; its rows are
exactly the cartesian product of the discrete value lists (so the row count
is the product of the value-set sizes and, the value lists being
duplicate-free, every combination appears exactly once); with no discrete
parameter it returns the empty frame (zero rows, zero columns). -/
theorem claim_C2 (parameters : List Param)
    (hnd : ∀ p ∈ parameters, p.is_discrete = true → p.values.Nodup) :
    ((parameters.filter (·.is_discrete)) ≠ [] →
      (parameter_cartesian_prod_to_df parameters).cols
          = (parameters.filter (·.is_discrete)).map (·.name) ∧
      (parameter_cartesian_prod_to_df parameters).rows.map Prod.snd
          = cartProd ((parameters.filter (·.is_discrete)).map (·.values)) ∧
      (parameter_cartesian_prod_to_df parameters).rows.length
          = ((parameters.filter (·.is_discrete)).map
              (fun p => p.values.length)).prod ∧
      ((parameter_cartesian_prod_to_df parameters).rows.map Prod.snd).Nodup ∧
      (∀ r : Row,
        r ∈ (parameter_cartesian_prod_to_df parameters).rows.map Prod.snd ↔
          List.Forall₂ (· ∈ ·) r
            ((parameters.filter (·.is_discrete)).map (·.values)))) ∧
    ((parameters.filter (·.is_discrete)) = [] →
      parameter_cartesian_prod_to_df parameters = ⟨[], []⟩) := by
  constructor
  · intro hne
    have hlen : ¬ ((parameters.filter (·.is_discrete)).map (·.name)).length < 1 := by
      rw [List.length_map, not_lt]
      exact List.length_pos.mpr hne
    have hdf : parameter_cartesian_prod_to_df parameters
        = ⟨(parameters.filter (·.is_discrete)).map (·.name),
           (cartProd ((parameters.filter (·.is_discrete)).map (·.values))).enum⟩ := by
      simp only [parameter_cartesian_prod_to_df]
      rw [if_neg hlen]
    have hnodup : (cartProd ((parameters.filter (·.is_discrete)).map (·.values))).Nodup := by
      refine cartProd_nodup ?_
      intro vs hvs
      simp only [List.mem_map] at hvs
      obtain ⟨p, hp, rfl⟩ := hvs
      exact hnd p (List.mem_of_mem_filter hp) (List.of_mem_filter hp)
    rw [hdf]
    refine ⟨rfl, List.enum_map_snd _, ?_, ?_, ?_⟩
    · show (List.enum _).length = _
      rw [List.enum_length, cartProd_length, List.map_map]
      rfl
    · rw [List.enum_map_snd]
      exact hnodup
    · intro r
      rw [List.enum_map_snd]
      exact mem_cartProd
  · intro hempty
    simp only [parameter_cartesian_prod_to_df]
    rw [if_pos (by rw [hempty]; decide)]

/-- Witness for claim C2: two discrete parameters (values `[1, 2]` and
`[5, 6, 7]`) with a continuous one in between give a `2 × 3 = 6`-row
product with columns `["a", "c"]`, each combination once; a single
continuous parameter gives the empty frame. -/
theorem claim_C2_witness :
    ((parameter_cartesian_prod_to_df
        [{ name := "a", values := [1, 2], isNumDiscrete := true },
         { name := "b", is_discrete := false },
         { name := "c", values := [5, 6, 7], isNumDiscrete := true }]).cols
      = ["a", "c"] ∧
     (parameter_cartesian_prod_to_df
        [{ name := "a", values := [1, 2], isNumDiscrete := true },
         { name := "b", is_discrete := false },
         { name := "c", values := [5, 6, 7], isNumDiscrete := true }]).rows.length
      = 6 ∧
     [2, 5] ∈ (parameter_cartesian_prod_to_df
        [{ name := "a", values := [1, 2], isNumDiscrete := true },
         { name := "b", is_discrete := false },
         { name := "c", values := [5, 6, 7], isNumDiscrete := true }]).rows.map
          Prod.snd) ∧
    parameter_cartesian_prod_to_df [{ name := "b", is_discrete := false }]
      = ⟨[], []⟩ := by
  have h1 := claim_C2
    [{ name := "a", values := [1, 2], isNumDiscrete := true },
     { name := "b", is_discrete := false },
     { name := "c", values := [5, 6, 7], isNumDiscrete := true }]
    (by
      intro p hp _
      simp only [List.mem_cons, List.not_mem_nil, or_false] at hp
      rcases hp with rfl | rfl | rfl <;> decide)
  have h2 := claim_C2 [{ name := "b", is_discrete := false }]
    (by
      intro p hp _
      simp only [List.mem_cons, List.not_mem_nil, or_false] at hp
      rcases hp with rfl
      decide)
  obtain ⟨hc, _, hl, _, hmem⟩ := h1.1 (List.length_pos.mp (by decide))
  refine ⟨⟨?_, ?_, ?_⟩, ?_⟩
  · rw [hc]; with_unfolding_all rfl
  · rw [hl]; with_unfolding_all rfl
  · refine (hmem [2, 5]).mpr ?_
    refine List.Forall₂.cons (by decide) ?_
    refine List.Forall₂.cons (by decide) ?_
    exact List.Forall₂.nil
  · exact h2.2 (List.length_eq_zero.mp (by decide))

/-! ## Claims C3 and C4: `from_product` and the constraint ordering -/

theorem from_product_def (parameters : List Param) (cs : List DConstraint)
    (ee : Bool) :
    SubspaceDiscrete.from_product parameters cs ee
    = SubspaceDiscrete.make parameters
        (resetIndex
          (((List.insertionSort constraintLe cs).filter
              (·.eval_during_creation)).foldl
            (fun df c => dropLabels df (c.get_invalid df))
            (parameter_cartesian_prod_to_df parameters)))
        none ee (List.insertionSort constraintLe cs) none := rfl

theorem foldl_dropLabels_cols (cs : List DConstraint) (df : DFrame) :
    (cs.foldl (fun d c => dropLabels d (c.get_invalid d)) df).cols
      = df.cols := by
  induction cs generalizing df with
  | nil => rfl
  | cons c t ih => exact (ih (dropLabels df (c.get_invalid df)))

theorem resetIndex_map_fst (d : DFrame) :
    (resetIndex d).rows.map Prod.fst = List.range d.rows.length := by
  show (List.enum _).map Prod.fst = _
  rw [List.enum_map_fst, List.length_map]

theorem resetIndex_length (d : DFrame) :
    (resetIndex d).rows.length = d.rows.length := by
  show (List.enum _).length = _
  rw [List.enum_length, List.length_map]

theorem orderedInsert_of_le (c : DConstraint) (m : List DConstraint)
    (h : ∀ x ∈ m, constraintLe c x) :
    List.orderedInsert constraintLe c m = c :: m := by
  cases m with
  | nil => rfl
  | cons a t =>
    rw [List.orderedInsert, if_pos (h a (List.mem_cons_self _ _))]

theorem filter_orderedInsert (p : DConstraint → Bool) (c : DConstraint)
    (l : List DConstraint) (hs : l.Sorted constraintLe) :
    (List.orderedInsert constraintLe c l).filter p
    = if p c then List.orderedInsert constraintLe c (l.filter p)
      else l.filter p := by
  induction l with
  | nil =>
    by_cases hc : p c <;>
      simp [List.orderedInsert, List.filter_cons, hc]
  | cons a t ih =>
    rw [List.orderedInsert]
    by_cases hca : constraintLe c a
    · rw [if_pos hca]
      by_cases hc : p c
      · rw [if_pos hc, List.filter_cons_of_pos hc]
        by_cases ha : p a
        · rw [List.filter_cons_of_pos ha, List.orderedInsert, if_pos hca]
        · rw [List.filter_cons_of_neg ha]
          have hle : ∀ x ∈ t.filter p, constraintLe c x := by
            intro x hx
            exact Nat.le_trans hca
              ((List.sorted_cons.mp hs).1 x (List.mem_of_mem_filter hx))
          rw [orderedInsert_of_le c _ hle]
      · rw [if_neg hc, List.filter_cons_of_neg hc]
    · rw [if_neg hca]
      have ht : t.Sorted constraintLe := (List.sorted_cons.mp hs).2
      by_cases ha : p a
      · rw [List.filter_cons_of_pos ha, ih ht]
        by_cases hc : p c
        · rw [if_pos hc, if_pos hc, List.filter_cons_of_pos ha,
            List.orderedInsert, if_neg hca]
        · rw [if_neg hc, if_neg hc, List.filter_cons_of_pos ha]
      · rw [List.filter_cons_of_neg ha, ih ht]
        by_cases hc : p c
        · rw [if_pos hc, if_pos hc, List.filter_cons_of_neg ha]
        · rw [if_neg hc, if_neg hc, List.filter_cons_of_neg ha]

/-- Stability of the canonical constraint sort: sorting commutes with any
predicate filter, so in particular the creation-time constraints appear in
the sorted list exactly as they would if sorted alone. -/
theorem insertionSort_filter (p : DConstraint → Bool)
    (cs : List DConstraint) :
    List.insertionSort constraintLe (cs.filter p)
    = (List.insertionSort constraintLe cs).filter p := by
  induction cs with
  | nil => rfl
  | cons a t ih =>
    by_cases ha : p a
    · rw [List.filter_cons_of_pos ha,
        show List.insertionSort constraintLe (a :: t.filter p)
          = List.orderedInsert constraintLe a
              (List.insertionSort constraintLe (t.filter p)) from rfl,
        ih,
        show List.insertionSort constraintLe (a :: t)
          = List.orderedInsert constraintLe a
              (List.insertionSort constraintLe t) from rfl,
        filter_orderedInsert p a _ (List.sorted_insertionSort _ _),
        if_pos ha]
    · rw [List.filter_cons_of_neg ha,
        show List.insertionSort constraintLe (a :: t)
          = List.orderedInsert constraintLe a
              (List.insertionSort constraintLe t) from rfl,
        filter_orderedInsert p a _ (List.sorted_insertionSort _ _),
        if_neg ha, ih]

theorem filter_eval_idem (l : List DConstraint) :
    (l.filter (·.eval_during_creation)).filter (·.eval_during_creation)
      = l.filter (·.eval_during_creation) := by
  rw [List.filter_filter]
  exact List.filter_congr (fun x _ => Bool.and_self _)

theorem from_product_ok (parameters : List Param)
    (constraints : List DConstraint) (ee : Bool)
    (hnames : (parameters.map (·.name)).Nodup)
    (hdisc : ∀ p ∈ parameters, p.is_discrete = true)
    (hnotask : ∀ p ∈ parameters, p.isTask = false) :
    ∃ s, SubspaceDiscrete.from_product parameters constraints ee = .ok s ∧
      s.parameters = parameters ∧
      s.exp_rep = resetIndex
        (((List.insertionSort constraintLe constraints).filter
            (·.eval_during_creation)).foldl
          (fun df c => dropLabels df (c.get_invalid df))
          (parameter_cartesian_prod_to_df parameters)) ∧
      s.constraints = List.insertionSort constraintLe constraints ∧
      s.empty_encoding = ee := by
  rw [from_product_def]
  refine make_ok parameters _ ee _ hnames ?_ hnotask ?_
  · rw [resetIndex_map_fst]
    exact List.nodup_range _
  · intro p hp
    have hne : parameters ≠ [] := by
      intro h
      rw [h] at hp
      cases hp
    have hfilter : parameters.filter (·.is_discrete) = parameters :=
      List.filter_eq_self.mpr (fun q hq => by simp [hdisc q hq])
    have hcols : (parameter_cartesian_prod_to_df parameters).cols
        = parameters.map (·.name) := by
      simp only [parameter_cartesian_prod_to_df, hfilter]
      rw [if_neg (by
        rw [List.length_map, not_lt]
        exact List.length_pos.mpr hne)]
    show p.name ∈ (((List.insertionSort constraintLe constraints).filter
        (·.eval_during_creation)).foldl
        (fun df c => dropLabels df (c.get_invalid df))
        (parameter_cartesian_prod_to_df parameters)).cols
    rw [foldl_dropLabels_cols, hcols]
    exact List.mem_map_of_mem _ hp

/-- Claim C3: in `from_product` the creation-time constraints are applied
sequentially in the stored canonical order — each `get_invalid` evaluated
on the table as pruned by all earlier constraints, its rows dropped before
the next constraint runs; non-creation-time constraints are kept in the
stored constraint list but remove no rows (the same `exp_rep` results when
they are omitted); afterwards the row index is reset to a dense 0-based
sequence. -/
theorem claim_C3 (parameters : List Param) (constraints : List DConstraint)
    (ee : Bool)
    (hnames : (parameters.map (·.name)).Nodup)
    (hdisc : ∀ p ∈ parameters, p.is_discrete = true)
    (hnotask : ∀ p ∈ parameters, p.isTask = false) :
    ∃ s, SubspaceDiscrete.from_product parameters constraints ee = .ok s ∧
      s.constraints = List.insertionSort constraintLe constraints ∧
      s.exp_rep = resetIndex
        (((List.insertionSort constraintLe constraints).filter
            (·.eval_during_creation)).foldl
          (fun df c => dropLabels df (c.get_invalid df))
          (parameter_cartesian_prod_to_df parameters)) ∧
      s.exp_rep.rows.map Prod.fst = List.range s.exp_rep.rows.length ∧
      (∀ s2, SubspaceDiscrete.from_product parameters
          (constraints.filter (·.eval_during_creation)) ee = .ok s2 →
        s2.exp_rep = s.exp_rep) := by
  obtain ⟨s, hs, _, he, hc, _⟩ :=
    from_product_ok parameters constraints ee hnames hdisc hnotask
  refine ⟨s, hs, hc, he, ?_, ?_⟩
  · rw [he, resetIndex_map_fst, resetIndex_length]
  · intro s2 h2
    obtain ⟨s2', hs2', _, he2, _, _⟩ :=
      from_product_ok parameters (constraints.filter (·.eval_during_creation))
        ee hnames hdisc hnotask
    rw [hs2'] at h2
    injection h2 with h2
    subst h2
    rw [he2, he, insertionSort_filter, filter_eval_idem]

/-- Witness for claim C3: one parameter over `[1, 2, 3]`; a creation-time
constraint of type position `1` dropping label `0`, and a retained
non-creation-time constraint of type position `0`: the constraints are
stored sorted `[0, 1]`, the creation-time one prunes the first product row,
and the result is densely reindexed. -/
theorem claim_C3_witness :
    (SubspaceDiscrete.from_product
        [{ name := "x", values := [1, 2, 3], isNumDiscrete := true }]
        [⟨1, true, fun _ => [0]⟩, ⟨0, false, fun _ => [1]⟩] false).map
          (fun s => (s.exp_rep, s.constraints.map (·.typePos)))
      = .ok (⟨["x"], [(0, [2]), (1, [3])]⟩, [0, 1]) := by
  obtain ⟨s, hs, hc, he, _, _⟩ := claim_C3
    [{ name := "x", values := [1, 2, 3], isNumDiscrete := true }]
    [⟨1, true, fun _ => [0]⟩, ⟨0, false, fun _ => [1]⟩] false
    (by decide)
    (by
      intro p hp
      simp only [List.mem_cons, List.not_mem_nil, or_false] at hp
      rcases hp with rfl
      rfl)
    (by
      intro p hp
      simp only [List.mem_cons, List.not_mem_nil, or_false] at hp
      rcases hp with rfl
      rfl)
  rw [hs]
  show Except.ok (s.exp_rep, s.constraints.map (·.typePos)) = _
  rw [he, hc]
  with_unfolding_all rfl

theorem sorted_lt_of_sorted_le {l : List DConstraint}
    (hs : List.Sorted constraintLe l) (hn : (l.map (·.typePos)).Nodup) :
    List.Sorted constraintLt l := by
  have hp : l.Pairwise (fun a b => a.typePos ≠ b.typePos) :=
    List.pairwise_map.mp hn
  exact (hs.and hp).imp (fun h => Nat.lt_of_le_of_ne h.1 h.2)

/-- Claim C4 is false as stated: with two creation-time constraints of the
same type (position `0`), the stable sort keeps the input order, so the two
input orders prune differently and `from_product` yields different
`exp_rep`s.  The first constraint drops label `0`; the second drops label
`1` only from a two-row table. -/
theorem claim_C4_counterexample :
    ∃ s1 s2,
      SubspaceDiscrete.from_product
        [{ name := "x", values := [1, 2], isNumDiscrete := true }]
        [⟨0, true, fun _ => [0]⟩,
         ⟨0, true, fun df => if df.rows.length = 2 then [1] else []⟩]
        false = .ok s1 ∧
      SubspaceDiscrete.from_product
        [{ name := "x", values := [1, 2], isNumDiscrete := true }]
        [⟨0, true, fun df => if df.rows.length = 2 then [1] else []⟩,
         ⟨0, true, fun _ => [0]⟩]
        false = .ok s2 ∧
      s1.exp_rep ≠ s2.exp_rep := by
  refine ⟨_, _, by with_unfolding_all rfl, by with_unfolding_all rfl, ?_⟩
  show (⟨["x"], [(0, [2])]⟩ : DFrame) ≠ (⟨["x"], []⟩ : DFrame)
  decide

/-- Claim C4, amended: the constraints attached by `from_product` are
stable-sorted by their type's canonical position; for constraints of
pairwise distinct type positions (as in the spec's example of a
permutation-invariance plus a no-duplicate-labels constraint), any input
order yields the same sorted constraint list and an identical
`from_product` result; with several same-type constraints the stored
relative order follows the input order. -/
theorem claim_C4 (parameters : List Param) (cs1 cs2 : List DConstraint)
    (ee : Bool) (hperm : cs1.Perm cs2)
    (hkeys : (cs1.map (·.typePos)).Nodup) :
    List.insertionSort constraintLe cs1
      = List.insertionSort constraintLe cs2 ∧
    SubspaceDiscrete.from_product parameters cs1 ee
      = SubspaceDiscrete.from_product parameters cs2 ee := by
  have hkeys1 : ((List.insertionSort constraintLe cs1).map (·.typePos)).Nodup := by
    exact ((List.perm_insertionSort constraintLe cs1).map (·.typePos)).nodup_iff.mpr hkeys
  have hkeys2 : ((List.insertionSort constraintLe cs2).map (·.typePos)).Nodup := by
    refine ((List.perm_insertionSort constraintLe cs2).map (·.typePos)).nodup_iff.mpr ?_
    exact (hperm.map (·.typePos)).nodup_iff.mp hkeys
  have hsorted_eq : List.insertionSort constraintLe cs1
      = List.insertionSort constraintLe cs2 := by
    refine List.eq_of_perm_of_sorted (r := constraintLt)
      (((List.perm_insertionSort constraintLe cs1).trans hperm).trans
        (List.perm_insertionSort constraintLe cs2).symm) ?_ ?_
    · exact sorted_lt_of_sorted_le
        (List.sorted_insertionSort constraintLe cs1) hkeys1
    · exact sorted_lt_of_sorted_le
        (List.sorted_insertionSort constraintLe cs2) hkeys2
  refine ⟨hsorted_eq, ?_⟩
  rw [from_product_def, from_product_def, hsorted_eq]

/-- Witness for the amended claim C4: two constraints of distinct type
positions supplied in both orders sort identically and give identical
`from_product` results. -/
theorem claim_C4_witness :
    List.insertionSort constraintLe
        [(⟨1, false, fun _ => []⟩ : DConstraint), ⟨0, true, fun _ => []⟩]
      = List.insertionSort constraintLe
        [(⟨0, true, fun _ => []⟩ : DConstraint), ⟨1, false, fun _ => []⟩] ∧
    SubspaceDiscrete.from_product
        [{ name := "x", values := [1, 2], isNumDiscrete := true }]
        [⟨1, false, fun _ => []⟩, ⟨0, true, fun _ => []⟩] false
      = SubspaceDiscrete.from_product
        [{ name := "x", values := [1, 2], isNumDiscrete := true }]
        [⟨0, true, fun _ => []⟩, ⟨1, false, fun _ => []⟩] false :=
  claim_C4
    [{ name := "x", values := [1, 2], isNumDiscrete := true }]
    [⟨1, false, fun _ => []⟩, ⟨0, true, fun _ => []⟩]
    [⟨0, true, fun _ => []⟩, ⟨1, false, fun _ => []⟩]
    false
    (List.Perm.swap _ _ _)
    (by decide)

/-! ## Claim C5: the inactive-task metadata invariant -/

theorem zipWith_get?_of_both {α β γ : Type} {f : α → β → γ} {l1 : List α}
    {l2 : List β} {i : Nat} {a : α} {b : β}
    (h1 : l1.get? i = some a) (h2 : l2.get? i = some b) :
    (List.zipWith f l1 l2).get? i = some (f a b) := by
  induction l1 generalizing l2 i with
  | nil => cases h1
  | cons x t ih =>
    cases l2 with
    | nil => cases h2
    | cons y t2 =>
      cases i with
      | zero =>
        injection h1 with h1
        injection h2 with h2
        rw [← h1, ← h2]
        rfl
      | succ n => exact ih h1 h2

theorem makeTail_metadata {parameters : List Param} {exp_rep : DFrame}
    {md : List MetaRow} {mask : List Bool} {ee : Bool}
    {cs : List DConstraint} {cr? : Option DFrame} {s : SubspaceDiscrete}
    (h : makeTail parameters exp_rep md mask ee cs cr? = .ok s) :
    s.metadata = postInitMetadata md mask := by
  unfold makeTail at h
  cases cr? with
  | some cr =>
    injection h with h
    subst h
    rfl
  | none =>
    cases htc : transformCore parameters ee none exp_rep with
    | error e => rw [htc] at h; cases h
    | ok t =>
      rw [htc] at h
      injection h with h
      subst h
      rfl

theorem postInitMetadata_get_false {md : List MetaRow} {mask : List Bool}
    {i : Nat} {m : MetaRow} (hm : md.get? i = some m)
    (hk : mask.get? i = some false) :
    ∃ m', (postInitMetadata md mask).get? i = some m'
      ∧ m'.dont_recommend = true := by
  rw [postInitMetadata]
  exact ⟨_, zipWith_get?_of_both hm hk, rfl⟩

theorem find?_isTask_not_isEmpty {parameters : List Param} {tp : Param}
    (h : parameters.find? (·.isTask) = some tp) :
    parameters.isEmpty = false := by
  cases parameters with
  | nil => cases h
  | cons a t => rfl

theorem make_none_eq (parameters : List Param) (exp_rep : DFrame) (ee : Bool)
    (cs : List DConstraint) (cr? : Option DFrame) (mask : List Bool)
    (h1 : (parameters.map (·.name)).Nodup)
    (h2 : (exp_rep.rows.map Prod.fst).Nodup)
    (hmask : onTaskMask parameters exp_rep = .ok mask) :
    SubspaceDiscrete.make parameters exp_rep none ee cs cr?
    = makeTail parameters exp_rep (defaultMetadata parameters mask) mask ee
        cs cr? := by
  unfold SubspaceDiscrete.make
  rw [if_neg (not_not_intro h1), if_neg (not_not_intro h2), hmask]

theorem make_some_eq (parameters : List Param) (exp_rep : DFrame)
    (md : List MetaRow) (ee : Bool) (cs : List DConstraint)
    (cr? : Option DFrame) (mask : List Bool)
    (h1 : (parameters.map (·.name)).Nodup)
    (h2 : (exp_rep.rows.map Prod.fst).Nodup)
    (hmask : onTaskMask parameters exp_rep = .ok mask) :
    SubspaceDiscrete.make parameters exp_rep (some md) ee cs cr?
    = (if md.length = exp_rep.rows.length then
        (if (md.zip mask).all (fun x => x.2 || x.1.dont_recommend) then
          makeTail parameters exp_rep md mask ee cs cr?
        else
          .error "Inconsistent instructions given: The provided metadata allows testing parameter configurations for inactive tasks.")
      else .error "metadata not aligned with exp_rep") := by
  unfold SubspaceDiscrete.make
  rw [if_neg (not_not_intro h1), if_neg (not_not_intro h2), hmask]

/-- Claim C5: for a space containing a task parameter, every `exp_rep` row
whose task-column value is not among the task parameter's `active_values`
has `dont_recommend = true` in the metadata — both when the metadata is
defaulted and when it is supplied externally — and supplying metadata with
`dont_recommend = false` on such a row makes construction fail. -/
theorem claim_C5 (parameters : List Param) (exp_rep : DFrame) (tp : Param)
    (j i : Nat) (r : Nat × Row) (v : ℚ)
    (htp : parameters.find? (·.isTask) = some tp)
    (hj : exp_rep.cols.indexOf? tp.name = some j)
    (hrow : exp_rep.rows.get? i = some r)
    (hv : r.2.get? j = some v)
    (hvact : v ∉ tp.active_values) :
    (∀ (metadata? : Option (List MetaRow)) (ee : Bool)
        (cs : List DConstraint) (cr? : Option DFrame) (s : SubspaceDiscrete),
      SubspaceDiscrete.make parameters exp_rep metadata? ee cs cr? = .ok s →
      ∃ m, s.metadata.get? i = some m ∧ m.dont_recommend = true) ∧
    (∀ (md : List MetaRow) (ee : Bool) (cs : List DConstraint)
        (cr? : Option DFrame) (m : MetaRow),
      md.get? i = some m → m.dont_recommend = false →
      (SubspaceDiscrete.make parameters exp_rep (some md) ee cs cr?).isOk
        = false) := by
  have hmask : onTaskMask parameters exp_rep
      = .ok (exp_rep.rows.map (fun rr =>
          match rr.2.get? j with
          | some w => decide (w ∈ tp.active_values)
          | none => false)) := by
    unfold onTaskMask
    rw [htp]
    show (match exp_rep.cols.indexOf? tp.name with
      | none => (.error "KeyError" : Except String (List Bool))
      | some jj =>
        .ok (exp_rep.rows.map (fun (rr : Nat × Row) =>
          match rr.2.get? jj with
          | some w => decide (w ∈ tp.active_values)
          | none => false))) = _
    rw [hj]
  have hmaski : (exp_rep.rows.map (fun rr =>
      match rr.2.get? j with
      | some w => decide (w ∈ tp.active_values)
      | none => false)).get? i = some false := by
    rw [List.get?_map, hrow]
    show some (match r.2.get? j with
      | some w => decide (w ∈ tp.active_values)
      | none => false) = some false
    rw [hv]
    simp [hvact]
  constructor
  · intro metadata? ee cs cr? s hmk
    by_cases h1 : (parameters.map (·.name)).Nodup
    · by_cases h2 : (exp_rep.rows.map Prod.fst).Nodup
      · cases metadata? with
        | none =>
          rw [make_none_eq parameters exp_rep ee cs cr? _ h1 h2 hmask] at hmk
          rw [makeTail_metadata hmk]
          have hdm : (defaultMetadata parameters
              (exp_rep.rows.map (fun rr =>
                match rr.2.get? j with
                | some w => decide (w ∈ tp.active_values)
                | none => false))).get? i
              = some ⟨false, false, true⟩ := by
            unfold defaultMetadata
            rw [find?_isTask_not_isEmpty htp, if_neg Bool.false_ne_true,
              List.get?_map, hmaski]
            rfl
          exact postInitMetadata_get_false hdm hmaski
        | some md =>
          rw [make_some_eq parameters exp_rep md ee cs cr? _ h1 h2 hmask]
            at hmk
          by_cases hlen : md.length = exp_rep.rows.length
          · rw [if_pos hlen] at hmk
            by_cases hall : ((md.zip (exp_rep.rows.map (fun rr =>
                match rr.2.get? j with
                | some w => decide (w ∈ tp.active_values)
                | none => false))).all (fun x => x.2 || x.1.dont_recommend))
              = true
            · rw [if_pos hall] at hmk
              rw [makeTail_metadata hmk]
              have hi : i < exp_rep.rows.length := by
                by_contra hcon
                rw [List.get?_eq_none.mpr (not_lt.mp hcon)] at hrow
                cases hrow
              obtain ⟨m, hm⟩ : ∃ m, md.get? i = some m := by
                cases hg : md.get? i with
                | none =>
                  rw [List.get?_eq_none] at hg
                  rw [hlen] at hg
                  exact absurd hi (not_lt.mpr hg)
                | some m => exact ⟨m, rfl⟩
              exact postInitMetadata_get_false hm hmaski
            · rw [if_neg hall] at hmk
              cases hmk
          · rw [if_neg hlen] at hmk
            cases hmk
      · rw [show SubspaceDiscrete.make parameters exp_rep metadata? ee cs cr?
            = .error "The index of this search space contains duplicates."
            from by
          unfold SubspaceDiscrete.make
          rw [if_neg (not_not_intro h1), if_pos h2]] at hmk
        cases hmk
    · rw [show SubspaceDiscrete.make parameters exp_rep metadata? ee cs cr?
          = .error "duplicate parameter names" from by
        unfold SubspaceDiscrete.make
        rw [if_pos h1]] at hmk
      cases hmk
  · intro md ee cs cr? m hm hfalse
    by_cases h1 : (parameters.map (·.name)).Nodup
    · by_cases h2 : (exp_rep.rows.map Prod.fst).Nodup
      · rw [make_some_eq parameters exp_rep md ee cs cr? _ h1 h2 hmask]
        by_cases hlen : md.length = exp_rep.rows.length
        · rw [if_pos hlen]
          have hpair : (md.zip (exp_rep.rows.map (fun rr =>
              match rr.2.get? j with
              | some w => decide (w ∈ tp.active_values)
              | none => false))).get? i = some (m, false) := by
            show (List.zipWith Prod.mk _ _).get? i = _
            exact zipWith_get?_of_both hm hmaski
          have hallfalse : ¬ ((md.zip (exp_rep.rows.map (fun rr =>
              match rr.2.get? j with
              | some w => decide (w ∈ tp.active_values)
              | none => false))).all (fun x => x.2 || x.1.dont_recommend))
              = true := by
            intro hall
            have := List.all_eq_true.mp hall _ (List.get?_mem hpair)
            rw [hfalse] at this
            cases this
          rw [if_neg hallfalse]
          rfl
        · rw [if_neg hlen]
          rfl
      · unfold SubspaceDiscrete.make
        rw [if_neg (not_not_intro h1), if_pos h2]
        rfl
    · unfold SubspaceDiscrete.make
      rw [if_pos h1]
      rfl

/-- Witness for claim C5: a two-row space with task parameter `t`
(`active_values = [0]`); the second row has task value `1`, so with default
metadata its `dont_recommend` is forced `true`, and supplying metadata
declaring it recommendable fails construction. -/
theorem claim_C5_witness :
    (SubspaceDiscrete.make
        [{ name := "t", values := [0, 1], isTask := true,
           active_values := [0] },
         { name := "x", values := [3, 4], isNumDiscrete := true }]
        ⟨["t", "x"], [(0, [0, 3]), (1, [1, 3])]⟩ none false [] none).map
          (fun s => (s.metadata.get? 1).map (·.dont_recommend))
      = .ok (some true) ∧
    (SubspaceDiscrete.make
        [{ name := "t", values := [0, 1], isTask := true,
           active_values := [0] },
         { name := "x", values := [3, 4], isNumDiscrete := true }]
        ⟨["t", "x"], [(0, [0, 3]), (1, [1, 3])]⟩
        (some [⟨false, false, false⟩, ⟨false, false, false⟩])
        false [] none).isOk = false := by
  obtain ⟨hok, herr⟩ := claim_C5
    [{ name := "t", values := [0, 1], isTask := true, active_values := [0] },
     { name := "x", values := [3, 4], isNumDiscrete := true }]
    ⟨["t", "x"], [(0, [0, 3]), (1, [1, 3])]⟩
    { name := "t", values := [0, 1], isTask := true, active_values := [0] }
    0 1 (1, [1, 3]) 1
    (by with_unfolding_all rfl)
    (by with_unfolding_all rfl)
    rfl rfl (by decide)
  constructor
  · obtain ⟨s, hs⟩ : ∃ s, SubspaceDiscrete.make
        [{ name := "t", values := [0, 1], isTask := true,
           active_values := [0] },
         { name := "x", values := [3, 4], isNumDiscrete := true }]
        ⟨["t", "x"], [(0, [0, 3]), (1, [1, 3])]⟩ none false [] none
        = .ok s := ⟨_, by with_unfolding_all rfl⟩
    obtain ⟨m, hm, hd⟩ := hok none false [] none s hs
    rw [hs]
    show Except.ok ((s.metadata.get? 1).map (·.dont_recommend)) = _
    rw [hm]
    show Except.ok (some m.dont_recommend) = _
    rw [hd]
  · exact herr [⟨false, false, false⟩, ⟨false, false, false⟩] false [] none
      ⟨false, false, false⟩ rfl rfl

/-! ## Claim C6: candidate retrieval -/

theorem keep_mask_eq : ∀ ar am d re me : Bool,
    (!(d || (!ar && re) || (!am && me)))
      = (!d && (ar || !re) && (am || !me)) := by decide

theorem candidate_rows_eq (rows : List (Nat × Row)) (md : List MetaRow)
    (ar am : Bool) :
    ((rows.zip (md.map (fun m =>
        m.dont_recommend || (!ar && m.was_recommended)
          || (!am && m.was_measured)))).filter (fun x => !x.2)).map Prod.fst
    = ((rows.zip md).filter (fun x =>
        !x.2.dont_recommend && (ar || !x.2.was_recommended)
          && (am || !x.2.was_measured))).map Prod.fst := by
  rw [List.zip_map_right, List.filter_map, List.map_map]
  have hp : ((fun (x : (Nat × Row) × Bool) => !x.2) ∘
      (Prod.map id (fun m =>
        m.dont_recommend || (!ar && m.was_recommended)
          || (!am && m.was_measured))))
      = fun (x : (Nat × Row) × MetaRow) =>
        !x.2.dont_recommend && (ar || !x.2.was_recommended)
          && (am || !x.2.was_measured) := by
    funext x
    show (!(x.2.dont_recommend || (!ar && x.2.was_recommended)
      || (!am && x.2.was_measured))) = _
    exact keep_mask_eq ar am _ _ _
  rw [hp]
  exact List.map_congr_left (fun x _ => rfl)

theorem filter_zip_map_fst_eq (mask : List Bool) :
    ∀ l1 l2 : List (Nat × Row), l1.map Prod.fst = l2.map Prod.fst →
    (((l1.zip mask).filter (fun x => !x.2)).map Prod.fst).map Prod.fst
    = (((l2.zip mask).filter (fun x => !x.2)).map Prod.fst).map Prod.fst := by
  induction mask with
  | nil =>
    intro l1 l2 _
    rw [List.zip_nil_right, List.zip_nil_right]
  | cons b mb ih =>
    intro l1 l2 h
    cases l1 with
    | nil =>
      cases l2 with
      | nil => rfl
      | cons a2 t2 => simp at h
    | cons a1 t1 =>
      cases l2 with
      | nil => simp at h
      | cons a2 t2 =>
        simp only [List.map_cons, List.cons.injEq] at h
        obtain ⟨h1, h2⟩ := h
        show ((((a1, b) :: t1.zip mb).filter
            (fun x => !x.2)).map Prod.fst).map Prod.fst
          = ((((a2, b) :: t2.zip mb).filter
            (fun x => !x.2)).map Prod.fst).map Prod.fst
        cases b with
        | false =>
          rw [List.filter_cons_of_pos rfl, List.filter_cons_of_pos rfl]
          show a1.1 :: _ = a2.1 :: _
          rw [h1, ih t1 t2 h2]
        | true =>
          rw [List.filter_cons_of_neg Bool.false_ne_true,
            List.filter_cons_of_neg Bool.false_ne_true]
          exact ih t1 t2 h2

/-- Claim C6: `get_candidates` returns the pair of `exp_rep` and `comp_rep`
row subsets consisting of exactly the rows whose `dont_recommend` flag is
false, whose `was_recommended` flag is false unless repeats are allowed,
and whose `was_measured` flag is false unless already-measured rows are
allowed; with aligned representations (as any constructed space has), the
two returned tables carry the same filtered index.  Being a pure function
of the space, the call never mutates it and repeated calls agree. -/
theorem claim_C6 (s : SubspaceDiscrete) (ar am : Bool)
    (hc : s.comp_rep.rows.map Prod.fst = s.exp_rep.rows.map Prod.fst) :
    ((s.get_candidates ar am).1.cols = s.exp_rep.cols) ∧
    ((s.get_candidates ar am).2.cols = s.comp_rep.cols) ∧
    ((s.get_candidates ar am).1.rows
      = ((s.exp_rep.rows.zip s.metadata).filter (fun x =>
          !x.2.dont_recommend && (ar || !x.2.was_recommended)
            && (am || !x.2.was_measured))).map Prod.fst) ∧
    ((s.get_candidates ar am).2.rows
      = ((s.comp_rep.rows.zip s.metadata).filter (fun x =>
          !x.2.dont_recommend && (ar || !x.2.was_recommended)
            && (am || !x.2.was_measured))).map Prod.fst) ∧
    ((s.get_candidates ar am).1.rows.map Prod.fst
      = (s.get_candidates ar am).2.rows.map Prod.fst) := by
  refine ⟨rfl, rfl, ?_, ?_, ?_⟩
  · exact candidate_rows_eq s.exp_rep.rows s.metadata ar am
  · exact candidate_rows_eq s.comp_rep.rows s.metadata ar am
  · exact filter_zip_map_fst_eq _ s.exp_rep.rows s.comp_rep.rows hc.symm

/-- Witness for claim C6: a three-row space whose rows are respectively
clean, already recommended, and marked `dont_recommend`:
`get_candidates false false` keeps exactly the first row in both
representations. -/
theorem claim_C6_witness :
    (SubspaceDiscrete.get_candidates
      { parameters := [{ name := "x", values := [1, 2, 3],
                         isNumDiscrete := true }],
        exp_rep := ⟨["x"], [(0, [1]), (1, [2]), (2, [3])]⟩,
        metadata := [⟨false, false, false⟩, ⟨true, false, false⟩,
          ⟨false, false, true⟩],
        empty_encoding := false, constraints := [],
        comp_rep := ⟨["x"], [(0, [1]), (1, [2]), (2, [3])]⟩ }
      false false).1.rows = [(0, [1])] ∧
    (SubspaceDiscrete.get_candidates
      { parameters := [{ name := "x", values := [1, 2, 3],
                         isNumDiscrete := true }],
        exp_rep := ⟨["x"], [(0, [1]), (1, [2]), (2, [3])]⟩,
        metadata := [⟨false, false, false⟩, ⟨true, false, false⟩,
          ⟨false, false, true⟩],
        empty_encoding := false, constraints := [],
        comp_rep := ⟨["x"], [(0, [1]), (1, [2]), (2, [3])]⟩ }
      false false).2.rows = [(0, [1])] := by
  obtain ⟨_, _, h3, h4, _⟩ := claim_C6
    { parameters := [{ name := "x", values := [1, 2, 3],
                       isNumDiscrete := true }],
      exp_rep := ⟨["x"], [(0, [1]), (1, [2]), (2, [3])]⟩,
      metadata := [⟨false, false, false⟩, ⟨true, false, false⟩,
        ⟨false, false, true⟩],
      empty_encoding := false, constraints := [],
      comp_rep := ⟨["x"], [(0, [1]), (1, [2]), (2, [3])]⟩ }
    false false rfl
  constructor
  · rw [h3]; with_unfolding_all rfl
  · rw [h4]; with_unfolding_all rfl

/-! ## Claim C8: the experimental-to-computational transform -/

/-- Claim C8: on a space with an established `comp_rep` column set,
`transform` reconciles its output to exactly those columns in that order —
whenever the input carries all parameter columns and the encodings produce
the established columns — preserving the input's row index; if the space
uses `empty_encoding` or the input has no rows, it short-circuits to a
zero-column table carrying the input's index. -/
theorem transformCore_some (parameters : List Param) (ee : Bool)
    (cols : List String) (data : DFrame) :
    transformCore parameters ee (some cols) data
    = if ee || data.rows.length < 1 then
        .ok ⟨[], data.rows.map (fun r => (r.1, ([] : Row)))⟩
      else if parameters.all (fun p => decide (p.name ∈ data.cols)) then
        selectCols (rawCompRep parameters data) cols
      else .error "KeyError" := by
  unfold transformCore
  split
  · rfl
  · split
    · rfl
    · rfl

theorem claim_C8 (s : SubspaceDiscrete) (data : DFrame) :
    ((s.empty_encoding = true ∨ data.rows = []) →
      s.transform data
        = .ok ⟨[], data.rows.map (fun r => (r.1, ([] : Row)))⟩) ∧
    (s.empty_encoding = false → data.rows ≠ [] → s.parameters ≠ [] →
      (∀ p ∈ s.parameters, p.name ∈ data.cols) →
      (∀ c ∈ s.comp_rep.cols, c ∈ (s.parameters.map (·.compCols)).flatten) →
      ∃ res, s.transform data = .ok res ∧
        res.cols = s.comp_rep.cols ∧
        res.rows.map Prod.fst = data.rows.map Prod.fst) := by
  constructor
  · rintro (hee | hrows)
    · show transformCore _ _ _ _ = _
      rw [transformCore_some, hee, Bool.true_or, if_pos rfl]
    · show transformCore _ _ _ _ = _
      rw [transformCore_some, hrows]
      simp
  · intro hee hne hpne hcols hsub
    have hraw : rawCompRep s.parameters data
        = ⟨(s.parameters.map (·.compCols)).flatten,
           data.rows.map (fun r =>
             (r.1, (s.parameters.map (fun p =>
               p.compRow ((r.2.get? (data.cols.indexOf p.name)).getD
                 0))).flatten))⟩ := by
      unfold rawCompRep
      rw [if_neg (fun h => hpne (List.isEmpty_iff.mp h))]
    have htr : s.transform data
        = selectCols (rawCompRep s.parameters data) s.comp_rep.cols := by
      show transformCore _ _ _ _ = _
      rw [transformCore_some, hee, Bool.false_or]
      rw [if_neg (by
        simp only [decide_eq_true_eq, not_lt]
        exact List.length_pos.mpr hne)]
      rw [if_pos
        (List.all_eq_true.mpr fun p hp => decide_eq_true (hcols p hp))]
    rw [htr, hraw]
    unfold selectCols
    rw [if_pos (List.all_eq_true.mpr fun c hcm => decide_eq_true (hsub c hcm))]
    refine ⟨_, rfl, rfl, ?_⟩
    show ((data.rows.map _).map _).map Prod.fst = _
    rw [List.map_map, List.map_map]
    exact List.map_congr_left (fun x _ => rfl)

/-- Witness for claim C8: a space whose established computational columns
are `["x2"]` (a reordered subset of the parameter's encoding columns
`["x1", "x2"]`); transforming a table with an extra column and index
`[5, 7]` yields exactly the established column, index preserved; with
`empty_encoding` set, the transform short-circuits to a zero-column frame
on the same index. -/
theorem claim_C8_witness :
    ((SubspaceDiscrete.transform
      { parameters := [{ name := "x", values := [1, 2],
                         isNumDiscrete := true, compCols := ["x1", "x2"],
                         compRow := fun v => [v, v + 1] }],
        exp_rep := ⟨["x"], [(0, [1]), (1, [2])]⟩, metadata := [],
        empty_encoding := false, constraints := [],
        comp_rep := ⟨["x2"], [(0, [2]), (1, [3])]⟩ }
      ⟨["y", "x"], [(5, [9, 3]), (7, [9, 4])]⟩).map (fun r => r.cols)
      = .ok ["x2"] ∧
     (SubspaceDiscrete.transform
      { parameters := [{ name := "x", values := [1, 2],
                         isNumDiscrete := true, compCols := ["x1", "x2"],
                         compRow := fun v => [v, v + 1] }],
        exp_rep := ⟨["x"], [(0, [1]), (1, [2])]⟩, metadata := [],
        empty_encoding := false, constraints := [],
        comp_rep := ⟨["x2"], [(0, [2]), (1, [3])]⟩ }
      ⟨["y", "x"], [(5, [9, 3]), (7, [9, 4])]⟩).map
        (fun r => r.rows.map Prod.fst)
      = .ok [5, 7]) ∧
    SubspaceDiscrete.transform
      { parameters := [{ name := "x", values := [1, 2],
                         isNumDiscrete := true, compCols := ["x1", "x2"],
                         compRow := fun v => [v, v + 1] }],
        exp_rep := ⟨["x"], [(0, [1]), (1, [2])]⟩, metadata := [],
        empty_encoding := true, constraints := [],
        comp_rep := ⟨["x2"], [(0, [2]), (1, [3])]⟩ }
      ⟨["y", "x"], [(5, [9, 3]), (7, [9, 4])]⟩
      = .ok ⟨[], [(5, []), (7, [])]⟩ := by
  constructor
  · obtain ⟨res, hres, hcolsr, hidx⟩ := (claim_C8
      { parameters := [{ name := "x", values := [1, 2],
                         isNumDiscrete := true, compCols := ["x1", "x2"],
                         compRow := fun v => [v, v + 1] }],
        exp_rep := ⟨["x"], [(0, [1]), (1, [2])]⟩, metadata := [],
        empty_encoding := false, constraints := [],
        comp_rep := ⟨["x2"], [(0, [2]), (1, [3])]⟩ }
      ⟨["y", "x"], [(5, [9, 3]), (7, [9, 4])]⟩).2
      rfl (List.cons_ne_nil _ _) (List.cons_ne_nil _ _)
      (by
        intro p hp
        simp only [List.mem_cons, List.not_mem_nil, or_false] at hp
        rcases hp with rfl
        decide)
      (by
        intro c hcm
        have hcm2 : c ∈ ["x2"] := hcm
        simp only [List.mem_cons, List.not_mem_nil, or_false] at hcm2
        subst hcm2
        decide)
    constructor
    · rw [hres]
      show Except.ok res.cols = _
      rw [hcolsr]
    · rw [hres]
      show Except.ok (res.rows.map Prod.fst) = _
      rw [hidx]
      rfl
  · have h := (claim_C8
      { parameters := [{ name := "x", values := [1, 2],
                         isNumDiscrete := true, compCols := ["x1", "x2"],
                         compRow := fun v => [v, v + 1] }],
        exp_rep := ⟨["x"], [(0, [1]), (1, [2])]⟩, metadata := [],
        empty_encoding := true, constraints := [],
        comp_rep := ⟨["x2"], [(0, [2]), (1, [3])]⟩ }
      ⟨["y", "x"], [(5, [9, 3]), (7, [9, 4])]⟩).1 (Or.inl rfl)
    rw [h]
    rfl

end Baybe
